import Mathlib

/-!
Verification of the expression-binding and expression-serialization core of
the distributed SQL engine slice: the RETURNING-clause binder and row
evaluation loop (`src/pkg/sql/returning.go`) and the distsql expression
encoder `MakeExpression` (`src/unnamed/part_000`).

Shallow embedding choices:
  * `Datum` is `Int` (the slice only ever manipulates integer datums, e.g.
    `DInt`); a datum evaluates to itself, as `DInt.Eval` does in Go.
  * Go `nil` slices versus allocated slices are modelled with `Option`:
    `returningHelper.exprs : Option (List Expr)` where `none` is Go `nil`.
  * Go panics are modelled as explicit error constructors in dedicated
    error types (`FatalError` for the encoder, `RunError.indexOutOfRange`
    and `BindError.internalPanic` elsewhere), kept distinct from ordinary
    error returns so that fatal/internal conditions remain distinguishable
    from recoverable ones, exactly as the source distinguishes `panic`
    from returning an `error`.
-/

/-- Equality of `Except` values is decidable when both components decide. -/
instance exceptDecEq {ε α : Type} [DecidableEq ε] [DecidableEq α] : DecidableEq (Except ε α) := fun a b =>
  match a, b with
  | .ok x, .ok y =>
    if h : x = y then .isTrue (by rw [h]) else .isFalse (by intro hc; cases hc; exact h rfl)
  | .ok _, .error _ => .isFalse (by intro hc; cases hc)
  | .error _, .ok _ => .isFalse (by intro hc; cases hc)
  | .error x, .error y =>
    if h : x = y then .isTrue (by rw [h]) else .isFalse (by intro hc; cases hc; exact h rfl)

/-- A SQL datum of the slice; the code under verification only evaluates
integer datums (`DInt`), which evaluate to themselves. -/
abbrev Datum := Int

/-- Session evaluation context (`tree.EvalContext`): the only capability this
core uses is the placeholder-binding environment, modelled as a positional
list (`$1` is index 0). A placeholder beyond the list is unbound. -/
structure EvalCtx where
  phVals : List Datum
deriving DecidableEq

/-- Placeholder evaluation (`tree.Placeholder.Eval`): look up the binding in
the evaluation context; `none` models the Go error return for an unbound
placeholder. -/
def evalPlaceholder (ctx : EvalCtx) (p : Nat) : Option Datum :=
  ctx.phVals[p]?

/-- Binary operators appearing in the slice's expressions. -/
inductive BinOp
| add
| mul
| div
deriving DecidableEq

/-- A typed expression tree (`tree.TypedExpr`): literals, indexed variables
(column references bound to a container by ordinal), placeholders, binary
operations, and aggregation/windowing constructs (which the binder must
reject). -/
inductive Expr
| lit (d : Datum)
| ivar (idx : Nat)
| placeholder (p : Nat)
| bin (op : BinOp) (l r : Expr)
| agg (e : Expr)
| window (e : Expr)
deriving DecidableEq

/-- Fatal (panic-class) failures of the encoder. `MakeExpression` in Go
returns no error value at all: every failure in it is a `panic`, so the
error channel of the embedding carries only fatal internal errors, never
recoverable ones. -/
inductive FatalError
| placeholderEvalFailed (p : Nat)
| unmappedIndex (idx : Nat)
| indexOutOfRange (idx : Nat)
deriving DecidableEq

/-- The wire expression (`distsqlrun.Expression`): a single textual field. -/
structure Expression where
  Expr : String
deriving DecidableEq

/-- Models the placeholder-formatting closure installed by
`exprFmtFlagsBase` (src/unnamed/part_000, lines 34-44): evaluate the
placeholder against the evaluation context and splice in its literal
textual form; a failed evaluation is a Go `panic`
("failed to serialize placeholder"), modelled as the fatal error
`FatalError.placeholderEvalFailed`. -/
def exprFmtFlagsBase (ctx : EvalCtx) (p : Nat) : Except FatalError String :=
  match evalPlaceholder ctx p with
  | some d => .ok (toString d)
  | none => .error (.placeholderEvalFailed p)

/-- Models the IndexedVar-formatting closure of `exprFmtFlagsNoMap`
(src/unnamed/part_000, lines 48-54): render the variable at local index
`idx` as `@(idx+1)`. -/
def exprFmtFlagsNoMap (idx : Nat) : Except FatalError String :=
  .ok ("@" ++ toString (idx + 1))

/-- Models the remapping IndexedVar-formatting closure inside
`MakeExpression` (src/unnamed/part_000, lines 78-86): look up
`indexVarMap[idx]`. Go slice indexing panics ("index out of range") when
`idx` is at or beyond the table's length, before the negative-marker check
is reached; a negative entry is the unmapped marker and panics
("unmapped index"). Otherwise render `@(remappedIdx+1)`. -/
def remapIvarFmt (m : List Int) (idx : Nat) : Except FatalError String :=
  match m[idx]? with
  | none => .error (.indexOutOfRange idx)
  | some j =>
    if j < 0 then .error (.unmappedIndex idx)
    else .ok ("@" ++ toString (j + 1))

/-- Textual form of a binary operator. -/
def binOpStr : BinOp → String
| .add => "+"
| .mul => "*"
| .div => "/"

/-- Modelled from the spec: the tree-rendering driver (`tree.FormatNode`
with `FmtParsable`-derived flags is not part of src/; spec 4.3 describes it
as rendering the tree to text while applying two interception rules at the
leaves). Placeholder leaves go through the `exprFmtFlagsBase` closure;
IndexedVar leaves go through the supplied IndexedVar formatter `ivf`; the
remaining nodes render in the engine's ordinary parsable grammar. -/
def formatNode (ctx : EvalCtx) (ivf : Nat → Except FatalError String) : Expr → Except FatalError String
| .lit d => .ok (toString d)
| .ivar idx => ivf idx
| .placeholder p => exprFmtFlagsBase ctx p
| .bin op a b =>
  match formatNode ctx ivf a with
  | .error e => .error e
  | .ok sa =>
    match formatNode ctx ivf b with
    | .error e => .error e
    | .ok sb => .ok (sa ++ " " ++ binOpStr op ++ " " ++ sb)
| .agg a =>
  match formatNode ctx ivf a with
  | .error e => .error e
  | .ok sa => .ok ("sum(" ++ sa ++ ")")
| .window a =>
  match formatNode ctx ivf a with
  | .error e => .error e
  | .ok sa => .ok ("rank() over (" ++ sa ++ ")")

/-- `MakeExpression` (src/unnamed/part_000, lines 64-93): creates a
`distsqlrun.Expression`. A `nil` expression yields the empty Expression.
Otherwise the expression is formatted with the placeholder interceptor and
with the IndexedVar formatter chosen by whether an `indexVarMap` was
supplied. The Go function returns no error: all failures are panics,
carried here on the `FatalError` channel. -/
def MakeExpression (expr : Option Expr) (evalCtx : EvalCtx) (indexVarMap : Option (List Int)) : Except FatalError Expression :=
  match expr with
  | none => .ok ⟨""⟩
  | some e =>
    let f : Nat → Except FatalError String :=
      match indexVarMap with
      | none => exprFmtFlagsNoMap
      | some m => remapIvarFmt m
    match formatNode evalCtx f e with
    | .error err => .error err
    | .ok s => .ok ⟨s⟩

/-- A column of a schema (`sqlbase.ColumnDescriptor` / result column): the
slice only consumes the name; every column of the exercised schemas is of
the single integer type. -/
structure ColumnDescriptor where
  name : String
deriving DecidableEq

/-- Failures of a single row-evaluation call. `evalErr` models an ordinary
Go `error` return (type coercion failure, arithmetic error, unbound
placeholder); `indexOutOfRange` models the Go runtime panic raised by
unchecked slice indexing in `IndexedVarEval`. -/
inductive RunError
| evalErr (msg : String)
| indexOutOfRange (idx : Nat)
deriving DecidableEq

/-- The RETURNING helper (`returningHelper`, src/pkg/sql/returning.go,
lines 31-48): the Container. `evalCtx` stands for `rh.p.evalCtx`; `exprs`
is the bound-expression list with `none` for the Go `nil` slice produced by
the pass-through construction path; `curSourceRow` is the mutable
CurrentRow slot; `source` holds the source columns of the single-table
data-source info. -/
structure returningHelper where
  evalCtx : EvalCtx
  columns : List ColumnDescriptor
  exprs : Option (List Expr)
  rowCount : Nat
  source : List ColumnDescriptor
  curSourceRow : List Datum
deriving DecidableEq

/-- `returningHelper.IndexedVarEval` (src/pkg/sql/returning.go, lines
120-122): `rh.curSourceRow[idx].Eval(ctx)`. The Go code indexes
`curSourceRow` without a bounds check, so an out-of-range index is a
runtime panic, modelled as `RunError.indexOutOfRange`; in range, the datum
evaluates to itself. -/
def returningHelper.IndexedVarEval (rh : returningHelper) (idx : Nat) : Except RunError Datum :=
  match rh.curSourceRow[idx]? with
  | some d => .ok d
  | none => .error (.indexOutOfRange idx)

/-- Evaluation of a binary operation on datums: division by zero is a
runtime evaluation error returned as an ordinary Go `error`. -/
def binOpEval (op : BinOp) (x y : Datum) : Except RunError Datum :=
  match op with
  | .add => .ok (x + y)
  | .mul => .ok (x * y)
  | .div => if y = 0 then .error (.evalErr "division by zero") else .ok (x / y)

/-- Expression evaluation (`tree.TypedExpr.Eval` as used by
`cookResultRow`): an IndexedVar dispatches through its back-reference to
the container's `IndexedVarEval`; a placeholder looks itself up in the
evaluation context, an unbound placeholder being an ordinary error;
aggregation and windowing constructs cannot be evaluated in this row
context (the binder rejects them before evaluation is ever reached). -/
def Eval : Expr → returningHelper → Except RunError Datum
| .lit d, _ => .ok d
| .ivar idx, rh => rh.IndexedVarEval idx
| .placeholder p, rh =>
  match evalPlaceholder rh.evalCtx p with
  | some d => .ok d
  | none => .error (.evalErr "unbound placeholder")
| .bin op a b, rh =>
  match Eval a rh with
  | .error e => .error e
  | .ok x =>
    match Eval b rh with
    | .error e => .error e
    | .ok y => binOpEval op x y
| .agg _, _ => .error (.evalErr "aggregate function in scalar context")
| .window _, _ => .error (.evalErr "window function in scalar context")

/-- The evaluation loop body of `cookResultRow` (src/pkg/sql/returning.go,
lines 108-115): evaluate each bound expression in list order against the
container, collecting the results; the first evaluation error aborts the
loop and is returned unmodified. -/
def evalList : List Expr → returningHelper → Except RunError (List Datum)
| [], _ => .ok []
| e :: rest, rh =>
  match Eval e rh with
  | .error err => .error err
  | .ok d =>
    match evalList rest rh with
    | .error err => .error err
    | .ok ds => .ok (d :: ds)

/-- `returningHelper.cookResultRow` (src/pkg/sql/returning.go, lines
102-117): if `exprs` is `nil`, increment the row counter and return the
input row unchanged; otherwise install the input row as `curSourceRow` and
evaluate every bound expression in order into a fresh output row, returning
the first evaluation error unmodified. The updated helper state is returned
alongside the result to make the Go mutations explicit. -/
def cookResultRow (rh : returningHelper) (rowVals : List Datum) : returningHelper × Except RunError (List Datum) :=
  match rh.exprs with
  | none => ({ rh with rowCount := rh.rowCount + 1 }, .ok rowVals)
  | some es =>
    let rh2 := { rh with curSourceRow := rowVals }
    (rh2, evalList es rh2)

/-- Failures of binder construction. `constructionError` models an ordinary
Go `error` return from `newReturningHelper` (carrying the clause context it
names); `internalPanic` models the Go `panic` in the `default` branch of
the clause-kind switch — a fatal internal-invariant violation, not an
ordinary error return. -/
inductive BindError
| constructionError (clauseCtx : String)
| internalPanic (msg : String)
deriving DecidableEq

/-- A single entry of a RETURNING expression list (`tree.SelectExpr`):
either the wildcard `*` or an ordinary expression. -/
inductive SelectTarget
| star
| expr (e : Expr)
deriving DecidableEq

/-- The RETURNING clause (`tree.ReturningClause`). The Go type is an open
interface; `otherClause` stands for any implementation other than the three
known ones, which the construction switch treats as unreachable. -/
inductive ReturningClause
| returningExprs (ts : List SelectTarget)
| returningNothing
| noReturningClause
| otherClause
deriving DecidableEq

/-- Whether an expression contains an aggregation or windowing construct
anywhere in its tree. -/
def containsAggOrWindow : Expr → Bool
| .lit _ => false
| .ivar _ => false
| .placeholder _ => false
| .bin _ a b => containsAggOrWindow a || containsAggOrWindow b
| .agg _ => true
| .window _ => true

/-- Whether a RETURNING target's expression contains an aggregation or
windowing construct; the wildcard contains none. -/
def targetHasAggOrWindow : SelectTarget → Bool
| .star => false
| .expr e => containsAggOrWindow e

/-- Modelled from the spec: `p.txCtx.AssertNoAggregationOrWindowing` is not
part of src/ (only its call site is); spec 4.1 says each source expression
is checked to reject aggregation and windowing constructs, failing with a
ConstructionError naming the clause context. -/
def assertNoAggregationOrWindowing (t : SelectTarget) (op : String) : Except BindError Unit :=
  if targetHasAggOrWindow t then .error (.constructionError op) else .ok ()

/-- Whether every IndexedVar ordinal in the expression is below `n`. -/
def allVarsLt : Expr → Nat → Bool
| .lit _, _ => true
| .ivar idx, n => idx < n
| .placeholder _, _ => true
| .bin _ a b, n => allVarsLt a n && allVarsLt b n
| .agg a, n => allVarsLt a n
| .window a, n => allVarsLt a n

/-- Modelled from the spec: `p.computeRenderAllowingStars` is not part of
src/ (only its call site is); spec 4.1 says each surviving entry is
resolved against the schema, with the wildcard expanding into one bound
variable per schema column (indices assigned densely starting at 0 in
schema order) and an ordinary expression yielding one result column and one
bound expression, while an unresolvable reference raises a
ConstructionError. -/
def computeRenderAllowingStars (t : SelectTarget) (srcCols : List ColumnDescriptor) : Except BindError (List ColumnDescriptor × List Expr) :=
  match t with
  | .star => .ok (srcCols, (List.range srcCols.length).map Expr.ivar)
  | .expr e =>
    if allVarsLt e srcCols.length then .ok ([⟨"?column?"⟩], [e])
    else .error (.constructionError "unresolved variable")

/-- The aggregation/windowing check loop of `newReturningHelper`
(src/pkg/sql/returning.go, lines 73-79): assert every target in order,
returning the first failure. -/
def checkTargets : List SelectTarget → Except BindError Unit
| [] => .ok ()
| t :: ts =>
  match assertNoAggregationOrWindowing t "RETURNING" with
  | .error err => .error err
  | .ok _ => checkTargets ts

/-- The render loop of `newReturningHelper` (src/pkg/sql/returning.go,
lines 86-96): resolve every target in order, appending the produced result
columns and bound expressions. -/
def renderTargets (srcCols : List ColumnDescriptor) : List SelectTarget → Except BindError (List ColumnDescriptor × List Expr)
| [] => .ok ([], [])
| t :: ts =>
  match computeRenderAllowingStars t srcCols with
  | .error err => .error err
  | .ok (cs, es) =>
    match renderTargets srcCols ts with
    | .error err => .error err
    | .ok (cs2, es2) => .ok (cs ++ cs2, es ++ es2)

/-- The zero-value helper `&returningHelper{p: p}` allocated at the top of
`newReturningHelper`: nil bound expressions, zero row count, nil columns,
source and current row. -/
def emptyReturningHelper (evalCtx : EvalCtx) : returningHelper :=
  { evalCtx := evalCtx, columns := [], exprs := none, rowCount := 0, source := [], curSourceRow := [] }

/-- `planner.newReturningHelper` (src/pkg/sql/returning.go, lines 53-98):
switch on the clause kind. `ReturningNothing` and `NoReturningClause`
short-circuit with the empty helper and no error; any other (unknown)
clause kind panics ("unexpected ReturningClause type"); an explicit
expression list is first checked entirely for aggregation/windowing, then
each target is resolved against the table's columns, accumulating result
columns and bound expressions (so `exprs` becomes non-nil, even when the
list is empty). -/
def newReturningHelper (r : ReturningClause) (tablecols : List ColumnDescriptor) (evalCtx : EvalCtx) : Except BindError returningHelper :=
  let rh := emptyReturningHelper evalCtx
  match r with
  | .returningNothing => .ok rh
  | .noReturningClause => .ok rh
  | .otherClause => .error (.internalPanic "unexpected ReturningClause type")
  | .returningExprs ts =>
    match checkTargets ts with
    | .error err => .error err
    | .ok _ =>
      match renderTargets tablecols ts with
      | .error err => .error err
      | .ok (cs, es) =>
        .ok { rh with columns := cs, source := tablecols, exprs := some es }

/-- Whether the placeholder `p` occurs anywhere in the expression. -/
def phOccurs (p : Nat) : Expr → Bool
| .lit _ => false
| .ivar _ => false
| .placeholder q => p == q
| .bin _ a b => phOccurs p a || phOccurs p b
| .agg a => phOccurs p a
| .window a => phOccurs p a

/-- Concrete container used as a witness input: schema `(k INT, v INT)`
with the single bound output expression `v * 2`. -/
def rhMulExample : returningHelper :=
  { emptyReturningHelper ⟨[]⟩ with
    source := [⟨"k"⟩, ⟨"v"⟩],
    exprs := some [Expr.bin .mul (.ivar 1) (.lit 2)] }


/-- An `evalList` success yields one result per expression, positionally:
the output has the same length and position `i` holds the evaluation result
of expression `i`. -/
theorem evalList_ok_get (es : List Expr) (rh : returningHelper) :
    ∀ (vs : List Datum), evalList es rh = .ok vs →
      vs.length = es.length ∧
      ∀ (i : Nat) (e : Expr) (d : Datum), es[i]? = some e → vs[i]? = some d →
        Eval e rh = .ok d := by
  induction es with
  | nil =>
    intro vs h
    unfold evalList at h
    cases h
    exact ⟨rfl, by intro i e d he hd; simp at he⟩
  | cons e rest ih =>
    intro vs h
    unfold evalList at h
    cases hE : Eval e rh with
    | error err => rw [hE] at h; cases h
    | ok d =>
      rw [hE] at h
      cases hR : evalList rest rh with
      | error err => rw [hR] at h; cases h
      | ok ds =>
        rw [hR] at h
        cases h
        obtain ⟨hlen, hget⟩ := ih ds hR
        refine ⟨by simp [hlen], ?_⟩
        intro i
        cases i with
        | zero =>
          intro e' d' he hd
          simp at he hd
          rw [← he, ← hd]
          exact hE
        | succ n =>
          intro e' d' he hd
          simp at he hd
          exact hget n e' d' he hd

/-- An `evalList` failure is the evaluation failure of one of the listed
expressions, propagated unmodified. -/
theorem evalList_error_mem (es : List Expr) (rh : returningHelper) :
    ∀ (err : RunError), evalList es rh = .error err →
      ∃ e ∈ es, Eval e rh = .error err := by
  induction es with
  | nil => intro err h; unfold evalList at h; cases h
  | cons e rest ih =>
    intro err h
    unfold evalList at h
    cases hE : Eval e rh with
    | error e1 =>
      rw [hE] at h
      cases h
      exact ⟨e, List.mem_cons_self e rest, hE⟩
    | ok d =>
      rw [hE] at h
      cases hR : evalList rest rh with
      | error e1 =>
        rw [hR] at h
        cases h
        obtain ⟨e2, hmem, heval⟩ := ih err hR
        exact ⟨e2, List.mem_cons_of_mem e hmem, heval⟩
      | ok ds => rw [hR] at h; cases h

/-- Expression evaluation reads only the current row and the evaluation
context of the container: two containers agreeing on those evaluate every
expression identically. -/
theorem Eval_congr (e : Expr) :
    ∀ (rh1 rh2 : returningHelper), rh1.curSourceRow = rh2.curSourceRow →
      rh1.evalCtx = rh2.evalCtx → Eval e rh1 = Eval e rh2 := by
  induction e with
  | lit d => intro rh1 rh2 hrow hctx; rfl
  | ivar i =>
    intro rh1 rh2 hrow hctx
    simp [Eval, returningHelper.IndexedVarEval, hrow]
  | placeholder p =>
    intro rh1 rh2 hrow hctx
    simp [Eval, hctx]
  | bin op a b iha ihb =>
    intro rh1 rh2 hrow hctx
    simp only [Eval]
    rw [iha rh1 rh2 hrow hctx, ihb rh1 rh2 hrow hctx]
  | agg a iha => intro rh1 rh2 hrow hctx; rfl
  | window a iha => intro rh1 rh2 hrow hctx; rfl

/-- The evaluation loop reads only the current row and the evaluation
context of the container. -/
theorem evalList_congr (es : List Expr) :
    ∀ (rh1 rh2 : returningHelper), rh1.curSourceRow = rh2.curSourceRow →
      rh1.evalCtx = rh2.evalCtx → evalList es rh1 = evalList es rh2 := by
  induction es with
  | nil => intro rh1 rh2 hrow hctx; rfl
  | cons e rest ih =>
    intro rh1 rh2 hrow hctx
    simp only [evalList]
    rw [Eval_congr e rh1 rh2 hrow hctx, ih rh1 rh2 hrow hctx]

/-- A `cookResultRow` call never changes the bound-expression list or the
evaluation context of the helper. -/
theorem cookResultRow_preserves (rh : returningHelper) (row : List Datum) :
    (cookResultRow rh row).1.exprs = rh.exprs ∧
    (cookResultRow rh row).1.evalCtx = rh.evalCtx := by
  unfold cookResultRow
  cases h : rh.exprs <;> simp [h]

/-- If every IndexedVar ordinal in the expression is below the current
row's length, evaluation can never reach the out-of-range branch of
`IndexedVarEval`. -/
theorem Eval_no_oob (e : Expr) :
    ∀ (rh : returningHelper), allVarsLt e rh.curSourceRow.length = true →
      ∀ (i : Nat), Eval e rh ≠ .error (.indexOutOfRange i) := by
  induction e with
  | lit d => intro rh hv i; simp [Eval]
  | ivar idx =>
    intro rh hv i
    simp [allVarsLt] at hv
    unfold Eval returningHelper.IndexedVarEval
    rw [List.getElem?_eq_getElem hv]
    simp
  | placeholder p =>
    intro rh hv i
    unfold Eval
    cases h : evalPlaceholder rh.evalCtx p <;> simp
  | bin op a b iha ihb =>
    intro rh hv i
    simp [allVarsLt] at hv
    obtain ⟨hva, hvb⟩ := hv
    intro hcon
    unfold Eval at hcon
    cases ha : Eval a rh with
    | error e1 =>
      rw [ha] at hcon
      cases hcon
      exact iha rh hva i ha
    | ok x =>
      rw [ha] at hcon
      cases hb : Eval b rh with
      | error e1 =>
        rw [hb] at hcon
        cases hcon
        exact ihb rh hvb i hb
      | ok y =>
        rw [hb] at hcon
        cases op with
        | add => simp [binOpEval] at hcon
        | mul => simp [binOpEval] at hcon
        | div =>
          by_cases hy : y = 0
          · simp [binOpEval, hy] at hcon
          · simp [binOpEval, hy] at hcon
  | agg a iha => intro rh hv i; simp [Eval]
  | window a iha => intro rh hv i; simp [Eval]

/-- If every IndexedVar ordinal in every listed expression is below the
current row's length, the evaluation loop can never fail with an
out-of-range access. -/
theorem evalList_no_oob (es : List Expr) :
    ∀ (rh : returningHelper),
      (∀ e ∈ es, allVarsLt e rh.curSourceRow.length = true) →
      ∀ (i : Nat), evalList es rh ≠ .error (.indexOutOfRange i) := by
  induction es with
  | nil => intro rh hv i; simp [evalList]
  | cons e rest ih =>
    intro rh hv i hcon
    unfold evalList at hcon
    cases hE : Eval e rh with
    | error e1 =>
      rw [hE] at hcon
      cases hcon
      exact Eval_no_oob e rh (hv e (List.mem_cons_self e rest)) i hE
    | ok d =>
      rw [hE] at hcon
      cases hR : evalList rest rh with
      | error e1 =>
        rw [hR] at hcon
        cases hcon
        exact ih rh (fun e2 he2 => hv e2 (List.mem_cons_of_mem e he2)) i hR
      | ok ds => rw [hR] at hcon; cases hcon

/-- If any listed target contains an aggregation or windowing construct,
the assertion loop fails with the ConstructionError naming the RETURNING
context. -/
theorem checkTargets_error_of_mem (ts : List SelectTarget) (t : SelectTarget) :
    t ∈ ts → targetHasAggOrWindow t = true →
    checkTargets ts = .error (.constructionError "RETURNING") := by
  induction ts with
  | nil => intro ht; exact absurd ht (List.not_mem_nil t)
  | cons hd tl ih =>
    intro ht hagg
    cases List.mem_cons.mp ht with
    | inl heq =>
      rw [← heq]
      simp [checkTargets, assertNoAggregationOrWindowing, hagg]
    | inr hmem =>
      by_cases hh : targetHasAggOrWindow hd = true
      · simp [checkTargets, assertNoAggregationOrWindowing, hh]
      · simp [checkTargets, assertNoAggregationOrWindowing, hh]
        exact ih hmem hagg

/-- A successful rendering leaves no placeholder unevaluated: every
placeholder occurring in the formatted expression had a binding in the
evaluation context. -/
theorem formatNode_ok_ph (e : Expr) (ctx : EvalCtx) (ivf : Nat → Except FatalError String) :
    ∀ (s : String), formatNode ctx ivf e = .ok s →
      ∀ (p : Nat), phOccurs p e = true → ∃ d, evalPlaceholder ctx p = some d := by
  induction e with
  | lit d => intro s h p hp; simp [phOccurs] at hp
  | ivar i => intro s h p hp; simp [phOccurs] at hp
  | placeholder q =>
    intro s h p hp
    simp [phOccurs] at hp
    rw [hp]
    unfold formatNode exprFmtFlagsBase at h
    cases hq : evalPlaceholder ctx q with
    | some d => exact ⟨d, rfl⟩
    | none => rw [hq] at h; cases h
  | bin op a b iha ihb =>
    intro s h p hp
    unfold formatNode at h
    cases ha : formatNode ctx ivf a with
    | error e1 => rw [ha] at h; cases h
    | ok sa =>
      rw [ha] at h
      cases hb : formatNode ctx ivf b with
      | error e1 => rw [hb] at h; cases h
      | ok sb =>
        simp [phOccurs] at hp
        cases hp with
        | inl hpa => exact iha sa ha p hpa
        | inr hpb => exact ihb sb hb p hpb
  | agg a iha =>
    intro s h p hp
    simp [phOccurs] at hp
    unfold formatNode at h
    cases ha : formatNode ctx ivf a with
    | error e1 => rw [ha] at h; cases h
    | ok sa => exact iha sa ha p hp
  | window a iha =>
    intro s h p hp
    simp [phOccurs] at hp
    unfold formatNode at h
    cases ha : formatNode ctx ivf a with
    | error e1 => rw [ha] at h; cases h
    | ok sa => exact iha sa ha p hp

/-- C1: for every call to the encoder `MakeExpression`, a variable leaf at
local index `i` renders as `@(i+1)` when no remap table is supplied; with a
remap table whose entry for `i` is `j`, it renders as `@(j+1)` when `j` is
not the unmapped (negative) marker, and fails with the fatal internal
"unmapped index" panic — the encoder has no recoverable error channel —
when it is. In particular, encoding `@1 + @2` (local indices 0 and 1) with
remap table `{0 -> 2, 1 -> 5}` yields the wire text `@3 + @6`, and with no
remap table yields `@1 + @2`. -/
theorem MakeExpression_ivar_remap :
    (∀ (ctx : EvalCtx) (i : Nat),
      MakeExpression (some (Expr.ivar i)) ctx none = .ok ⟨"@" ++ toString (i + 1)⟩) ∧
    (∀ (ctx : EvalCtx) (m : List Int) (i : Nat) (j : Int), m[i]? = some j → 0 ≤ j →
      MakeExpression (some (Expr.ivar i)) ctx (some m) = .ok ⟨"@" ++ toString (j + 1)⟩) ∧
    (∀ (ctx : EvalCtx) (m : List Int) (i : Nat) (j : Int), m[i]? = some j → j < 0 →
      MakeExpression (some (Expr.ivar i)) ctx (some m) = .error (.unmappedIndex i)) ∧
    MakeExpression (some (Expr.bin .add (Expr.ivar 0) (Expr.ivar 1))) ⟨[]⟩ (some [2, 5]) = .ok ⟨"@3 + @6"⟩ ∧
    MakeExpression (some (Expr.bin .add (Expr.ivar 0) (Expr.ivar 1))) ⟨[]⟩ none = .ok ⟨"@1 + @2"⟩ := by
  refine ⟨?_, ?_, ?_, by decide, by decide⟩
  · intro ctx i
    rfl
  · intro ctx m i j hj hge
    simp [MakeExpression, formatNode, remapIvarFmt, hj, not_lt.mpr hge]
  · intro ctx m i j hj hlt
    simp [MakeExpression, formatNode, remapIvarFmt, hj, hlt]

/-- C1 witness: the encoder rules evaluated at concrete inputs. -/
theorem MakeExpression_ivar_remap_witness :
    MakeExpression (some (Expr.ivar 0)) ⟨[]⟩ none = .ok ⟨"@" ++ toString (0 + 1)⟩ ∧
    MakeExpression (some (Expr.ivar 0)) ⟨[]⟩ (some [2, 5]) = .ok ⟨"@" ++ toString ((2 : Int) + 1)⟩ ∧
    MakeExpression (some (Expr.ivar 1)) ⟨[]⟩ (some [2, -1]) = .error (.unmappedIndex 1) :=
  ⟨MakeExpression_ivar_remap.1 ⟨[]⟩ 0,
   MakeExpression_ivar_remap.2.1 ⟨[]⟩ [2, 5] 0 2 (by decide) (by decide),
   MakeExpression_ivar_remap.2.2.1 ⟨[]⟩ [2, -1] 1 (-1) (by decide) (by decide)⟩

/-- C10: the "unmapped index" fatal error arises exactly for a variable
index that lies within the remap table's bounds with a negative (unmapped
marker) entry; an index at or beyond the table's length instead hits the
out-of-range indexing fault, a failure distinct from the "unmapped index"
one. -/
theorem remapIvarFmt_unmapped_vs_oob :
    (∀ (m : List Int) (i : Nat),
      remapIvarFmt m i = .error (.unmappedIndex i) ↔ ∃ j, m[i]? = some j ∧ j < 0) ∧
    (∀ (m : List Int) (i : Nat), m.length ≤ i →
      remapIvarFmt m i = .error (.indexOutOfRange i)) ∧
    (∀ (i i2 : Nat), (FatalError.indexOutOfRange i) ≠ (FatalError.unmappedIndex i2)) := by
  refine ⟨?_, ?_, ?_⟩
  · intro m i
    constructor
    · intro h
      unfold remapIvarFmt at h
      cases hg : m[i]? with
      | none => rw [hg] at h; simp at h
      | some j =>
        rw [hg] at h
        by_cases hj : j < 0
        · exact ⟨j, rfl, hj⟩
        · simp [hj] at h
    · rintro ⟨j, hg, hj⟩
      simp [remapIvarFmt, hg, hj]
  · intro m i hle
    have hg : m[i]? = none := List.getElem?_eq_none hle
    simp [remapIvarFmt, hg]
  · intro i i2
    simp

/-- C10 witness: the two distinct failures at concrete inputs. -/
theorem remapIvarFmt_unmapped_vs_oob_witness :
    (remapIvarFmt [2, -1] 1 = .error (.unmappedIndex 1) ↔ ∃ j, ([2, -1] : List Int)[1]? = some j ∧ j < 0) ∧
    remapIvarFmt [2, -1] 5 = .error (.indexOutOfRange 5) ∧
    (FatalError.indexOutOfRange 5) ≠ (FatalError.unmappedIndex 1) :=
  ⟨remapIvarFmt_unmapped_vs_oob.1 [2, -1] 1,
   remapIvarFmt_unmapped_vs_oob.2.1 [2, -1] 5 (by decide),
   remapIvarFmt_unmapped_vs_oob.2.2 5 1⟩

/-- C2: when the binder produced no bound expressions (the pass-through
case, Go `exprs == nil`), `cookResultRow` succeeds, returns the input row
value itself unchanged with no coercion, and increments the processed-row
counter by exactly 1. -/
theorem cookResultRow_passthrough (rh : returningHelper) (row : List Datum)
    (h : rh.exprs = none) :
    cookResultRow rh row = ({ rh with rowCount := rh.rowCount + 1 }, .ok row) := by
  unfold cookResultRow
  rw [h]

/-- C2 witness: the pass-through case on a concrete helper and row. -/
theorem cookResultRow_passthrough_witness :
    cookResultRow (emptyReturningHelper ⟨[]⟩) [1, 2] =
      ({ emptyReturningHelper ⟨[]⟩ with
          rowCount := (emptyReturningHelper ⟨[]⟩).rowCount + 1 }, .ok [1, 2]) :=
  cookResultRow_passthrough (emptyReturningHelper ⟨[]⟩) [1, 2] rfl

/-- Concrete helper with a non-nil bound-expression list used to exhibit
that a successful non-pass-through `cookResultRow` call leaves the
processed-row counter unchanged. -/
def rhLitExample : returningHelper :=
  { emptyReturningHelper ⟨[]⟩ with exprs := some [Expr.lit 7] }

/-- C3 counterexample: a successful `cookResultRow` call in the
bound-expression case does not increment the processed-row counter — the
code increments `rowCount` only on the pass-through path, refuting the
claim that every successful call increments it. -/
theorem cookResultRow_rowCount_cex :
    (cookResultRow rhLitExample [5]).2 = .ok [7] ∧
    ¬ ((cookResultRow rhLitExample [5]).1.rowCount = rhLitExample.rowCount + 1) := by
  decide

/-- C3 amended: the processed-row counter is incremented by exactly 1 on
every (always successful) pass-through call, and is left unchanged by every
call that evaluates bound expressions, whether that call succeeds or
fails. -/
theorem cookResultRow_rowCount_amended (rh : returningHelper) (row : List Datum) :
    (rh.exprs = none → (cookResultRow rh row).1.rowCount = rh.rowCount + 1) ∧
    (∀ es, rh.exprs = some es → (cookResultRow rh row).1.rowCount = rh.rowCount) := by
  constructor
  · intro h
    simp [cookResultRow, h]
  · intro es h
    simp [cookResultRow, h]

/-- C3 amended witness: both counter behaviours at concrete inputs. -/
theorem cookResultRow_rowCount_amended_witness :
    ((cookResultRow (emptyReturningHelper ⟨[]⟩) [5]).1.rowCount =
      (emptyReturningHelper ⟨[]⟩).rowCount + 1) ∧
    ((cookResultRow rhLitExample [5]).1.rowCount = rhLitExample.rowCount) :=
  ⟨(cookResultRow_rowCount_amended (emptyReturningHelper ⟨[]⟩) [5]).1 rfl,
   (cookResultRow_rowCount_amended rhLitExample [5]).2 [Expr.lit 7] rfl⟩

/-- C4: when the binder holds a non-empty bound-expression list and every
expression evaluates successfully, `cookResultRow` installs the input row
as the container's current row and returns a fresh output row with one
entry per bound expression, position `i` holding the evaluation result of
expression `i` (in list order). -/
theorem cookResultRow_eval (rh : returningHelper) (row : List Datum)
    (es : List Expr) (vs : List Datum)
    (hx : rh.exprs = some es) (hne : es ≠ [])
    (hok : evalList es { rh with curSourceRow := row } = .ok vs) :
    cookResultRow rh row = ({ rh with curSourceRow := row }, .ok vs) ∧
    vs.length = es.length ∧
    (∀ (i : Nat) (e : Expr) (d : Datum), es[i]? = some e → vs[i]? = some d →
      Eval e { rh with curSourceRow := row } = .ok d) := by
  refine ⟨?_, (evalList_ok_get es _ vs hok).1, (evalList_ok_get es _ vs hok).2⟩
  rw [hx] at hok
  simp [cookResultRow, hx, hok]

/-- C4 witness: schema `(k INT, v INT)` with output expression `v * 2`
evaluated against row `(10, 20)` produces output row `(40)`. -/
theorem cookResultRow_eval_witness :
    cookResultRow rhMulExample [10, 20] =
      ({ rhMulExample with curSourceRow := [10, 20] }, .ok [40]) :=
  (cookResultRow_eval rhMulExample [10, 20] [Expr.bin .mul (.ivar 1) (.lit 2)] [40]
    rfl (by decide) (by decide)).1

/-- C5: when evaluating the bound expressions fails, `cookResultRow`
returns the failing expression's error to the caller unmodified, produces
no result row (the error carries none), and leaves the processed-row
counter unchanged. -/
theorem cookResultRow_eval_error (rh : returningHelper) (row : List Datum)
    (es : List Expr) (err : RunError)
    (hx : rh.exprs = some es)
    (herr : evalList es { rh with curSourceRow := row } = .error err) :
    (cookResultRow rh row).2 = .error err ∧
    (cookResultRow rh row).1.rowCount = rh.rowCount ∧
    (∃ e ∈ es, Eval e { rh with curSourceRow := row } = .error err) := by
  refine ⟨?_, ?_, evalList_error_mem es _ err herr⟩
  · rw [hx] at herr
    simp [cookResultRow, hx, herr]
  · simp [cookResultRow, hx]

/-- Concrete helper whose single bound expression fails at evaluation time
with a division-by-zero runtime error. -/
def rhDivExample : returningHelper :=
  { emptyReturningHelper ⟨[]⟩ with exprs := some [Expr.bin .div (.lit 1) (.lit 0)] }

/-- C5 witness: a failing evaluation at a concrete input. -/
theorem cookResultRow_eval_error_witness :
    (cookResultRow rhDivExample [3]).2 = .error (.evalErr "division by zero") ∧
    (cookResultRow rhDivExample [3]).1.rowCount = rhDivExample.rowCount :=
  ⟨(cookResultRow_eval_error rhDivExample [3] [Expr.bin .div (.lit 1) (.lit 0)]
      (.evalErr "division by zero") rfl (by decide)).1,
   (cookResultRow_eval_error rhDivExample [3] [Expr.bin .div (.lit 1) (.lit 0)]
      (.evalErr "division by zero") rfl (by decide)).2.1⟩

/-- C6: binder construction classifies its clause in exactly three ways:
the "nothing"/"no returning" clause kinds yield the empty helper (nil
bound expressions) with no error; an explicit expression list containing
any aggregation or windowing construct fails with the ConstructionError
naming the RETURNING context; and any other clause-kind value is the fatal
internal panic ("unexpected ReturningClause type"), not an ordinary error
return. -/
theorem newReturningHelper_classification :
    (∀ (cols : List ColumnDescriptor) (ctx : EvalCtx),
      newReturningHelper .returningNothing cols ctx = .ok (emptyReturningHelper ctx) ∧
      newReturningHelper .noReturningClause cols ctx = .ok (emptyReturningHelper ctx) ∧
      (emptyReturningHelper ctx).exprs = none) ∧
    (∀ (cols : List ColumnDescriptor) (ctx : EvalCtx) (ts : List SelectTarget) (t : SelectTarget),
      t ∈ ts → targetHasAggOrWindow t = true →
      newReturningHelper (.returningExprs ts) cols ctx = .error (.constructionError "RETURNING")) ∧
    (∀ (cols : List ColumnDescriptor) (ctx : EvalCtx),
      newReturningHelper .otherClause cols ctx = .error (.internalPanic "unexpected ReturningClause type")) := by
  refine ⟨fun cols ctx => ⟨rfl, rfl, rfl⟩, ?_, fun cols ctx => rfl⟩
  intro cols ctx ts t hmem hagg
  simp [newReturningHelper, checkTargets_error_of_mem ts t hmem hagg]

/-- C6 witness: the three classifications at concrete inputs. -/
theorem newReturningHelper_classification_witness :
    newReturningHelper .returningNothing [⟨"k"⟩] ⟨[]⟩ = .ok (emptyReturningHelper ⟨[]⟩) ∧
    newReturningHelper (.returningExprs [.expr (.agg (.ivar 0))]) [⟨"k"⟩] ⟨[]⟩ =
      .error (.constructionError "RETURNING") ∧
    newReturningHelper .otherClause [] ⟨[]⟩ =
      .error (.internalPanic "unexpected ReturningClause type") :=
  ⟨(newReturningHelper_classification.1 [⟨"k"⟩] ⟨[]⟩).1,
   newReturningHelper_classification.2.1 [⟨"k"⟩] ⟨[]⟩ [.expr (.agg (.ivar 0))]
     (.expr (.agg (.ivar 0))) (List.mem_singleton.mpr rfl) (by decide),
   newReturningHelper_classification.2.2 [] ⟨[]⟩⟩

/-- C7: during encoding, a placeholder leaf is immediately evaluated
against the supplied evaluation context and its literal textual form is
spliced into the output; a placeholder that fails to evaluate makes the
encoder fail with a fatal internal panic (the encoder's only failure
channel — there is no ordinary error return); and whenever rendering
succeeds, every placeholder occurring in the expression was evaluated, so
no placeholder survives to the wire form. -/
theorem placeholder_interception :
    (∀ (ctx : EvalCtx) (ivf : Nat → Except FatalError String) (p : Nat) (d : Datum),
      evalPlaceholder ctx p = some d →
      formatNode ctx ivf (Expr.placeholder p) = .ok (toString d)) ∧
    (∀ (ctx : EvalCtx) (ivf : Nat → Except FatalError String) (p : Nat),
      evalPlaceholder ctx p = none →
      formatNode ctx ivf (Expr.placeholder p) = .error (.placeholderEvalFailed p)) ∧
    (∀ (ctx : EvalCtx) (ivf : Nat → Except FatalError String) (e : Expr) (s : String),
      formatNode ctx ivf e = .ok s →
      ∀ (p : Nat), phOccurs p e = true → ∃ d, evalPlaceholder ctx p = some d) := by
  refine ⟨?_, ?_, ?_⟩
  · intro ctx ivf p d h
    simp [formatNode, exprFmtFlagsBase, h]
  · intro ctx ivf p h
    simp [formatNode, exprFmtFlagsBase, h]
  · intro ctx ivf e s h p hp
    exact formatNode_ok_ph e ctx ivf s h p hp

/-- C7 witness: the placeholder rules at concrete inputs. -/
theorem placeholder_interception_witness :
    formatNode ⟨[42]⟩ exprFmtFlagsNoMap (Expr.placeholder 0) = .ok (toString (42 : Datum)) ∧
    formatNode ⟨[42]⟩ exprFmtFlagsNoMap (Expr.placeholder 3) = .error (.placeholderEvalFailed 3) ∧
    (∃ d, evalPlaceholder ⟨[42]⟩ 0 = some d) :=
  ⟨placeholder_interception.1 ⟨[42]⟩ exprFmtFlagsNoMap 0 42 rfl,
   placeholder_interception.2.1 ⟨[42]⟩ exprFmtFlagsNoMap 3 rfl,
   placeholder_interception.2.2 ⟨[42]⟩ exprFmtFlagsNoMap (Expr.placeholder 0) "42"
     (by decide) 0 rfl⟩

/-- C8: `cookResultRow` calls on the same container are independent — no
current-row state from a prior call affects a later one: evaluating row A,
then row B, then row A again yields identical results for the two row-A
calls. -/
theorem cookResultRow_independent (rh : returningHelper) (A B : List Datum) :
    (cookResultRow (cookResultRow (cookResultRow rh A).1 B).1 A).2 =
      (cookResultRow rh A).2 := by
  have key : ∀ (rh1 rh2 : returningHelper) (r : List Datum),
      rh1.exprs = rh2.exprs → rh1.evalCtx = rh2.evalCtx →
      (cookResultRow rh1 r).2 = (cookResultRow rh2 r).2 := by
    intro rh1 rh2 r hx hc
    unfold cookResultRow
    rw [hx]
    cases h2 : rh2.exprs with
    | none => rfl
    | some es =>
      simp only []
      exact evalList_congr es _ _ (by simp) (by simp [hc])
  have h1 := cookResultRow_preserves rh A
  have h2 := cookResultRow_preserves (cookResultRow rh A).1 B
  exact key _ rh A (by rw [h2.1, h1.1]) (by rw [h2.2, h1.2])

/-- C9: under the invariants that every variable ordinal referenced by any
bound expression is below the container's schema length and that the
current row installed by the call has exactly the schema length,
`IndexedVarEval` (which indexes the current row without a bounds check)
always takes the in-bounds branch, and the row evaluation can never fail
with the out-of-range fault: the out-of-range branch is unreachable. -/
theorem IndexedVarEval_safe (rh : returningHelper) (es : List Expr) (row : List Datum)
    (hx : rh.exprs = some es)
    (hv : ∀ e ∈ es, allVarsLt e rh.source.length = true)
    (hlen : row.length = rh.source.length) :
    (∀ (idx : Nat), idx < rh.source.length →
      ∃ d, returningHelper.IndexedVarEval { rh with curSourceRow := row } idx = .ok d) ∧
    (∀ (i : Nat), (cookResultRow rh row).2 ≠ .error (.indexOutOfRange i)) := by
  constructor
  · intro idx hidx
    have hidx2 : idx < row.length := by rw [hlen]; exact hidx
    refine ⟨row.get ⟨idx, hidx2⟩, ?_⟩
    unfold returningHelper.IndexedVarEval
    simp only []
    rw [List.getElem?_eq_getElem hidx2]
    simp
  · intro i
    have hres : (cookResultRow rh row).2 = evalList es { rh with curSourceRow := row } := by
      simp [cookResultRow, hx]
    rw [hres]
    apply evalList_no_oob
    intro e he
    have : ({ rh with curSourceRow := row } : returningHelper).curSourceRow.length = rh.source.length := by
      simp [hlen]
    rw [this]
    exact hv e he

/-- C9 witness: the invariants and conclusions at the concrete `(k, v)`
schema container with expression `v * 2` and row `(10, 20)`. -/
theorem IndexedVarEval_safe_witness :
    (∃ d, returningHelper.IndexedVarEval { rhMulExample with curSourceRow := [10, 20] } 1 = .ok d) ∧
    (cookResultRow rhMulExample [10, 20]).2 ≠ .error (.indexOutOfRange 0) := by
  have h := IndexedVarEval_safe rhMulExample [Expr.bin .mul (.ivar 1) (.lit 2)] [10, 20]
    rfl (by decide) rfl
  exact ⟨h.1 1 (by decide), h.2 0⟩
